import Mathlib

/-!
Shallow embedding of the configure-compute repository.

Namespace Core embeds src/core (value.rs, ports.rs, nodes.rs, graph.rs,
interpreter.rs).  Namespace Flat embeds src/compute/src/rules (engine.rs,
loader.rs).  Machine integers (u8, u16, u32) are modelled as Nat: no
arithmetic in the embedded code can overflow them on the inputs considered
(node ids are assigned consecutively, counters count requests).  Rust f64
fields that no embedded claim exercises arithmetically are modelled as Int.
External crates and host services (regex, cidr, ipnet, serde, base64, flate2,
the fastly ERL service and device detection) are modelled as oracle
functions supplied in an environment record; the embedded control flow
around the oracles follows the source exactly.
-/

namespace Core

/-- Runtime value flowing between nodes (core/src/value.rs, enum Value).
Number is f64 in the source; modelled as Int since no embedded claim
depends on float arithmetic.  Ip is modelled by its string form, which is
all the interpreter ever uses (to_string and truthiness). -/
inductive Value where
  | none
  | bool (b : Bool)
  | number (n : Int)
  | string (s : String)
  | ip (addr : String)
  | list (l : List Value)
  deriving Repr, BEq

/-- Value::is_truthy (core/src/value.rs). -/
def Value.isTruthy : Value → Bool
  | .none => false
  | .bool b => b
  | .number n => n != 0
  | .string s => !s.isEmpty
  | .ip _ => true
  | .list l => !l.isEmpty

/-- Port value types (core/src/ports.rs, enum PortType). -/
inductive PortType where
  | bool | number | string | ip | list | noneTy | anyTy
  deriving Repr, DecidableEq

/-- Input port descriptor (core/src/ports.rs, struct InputPort). -/
structure InputPort where
  name : String
  portType : PortType
  deriving Repr, DecidableEq

/-- Output port descriptor (core/src/ports.rs, struct OutputPort). -/
structure OutputPort where
  name : String
  portType : PortType
  deriving Repr, DecidableEq

/-- Request fields (core/src/nodes.rs, enum RequestField). -/
inductive RequestField where
  | clientIp | asn
  | country | countryCode3 | continent | city | region | postalCode
  | latitude | longitude | metroCode | utcOffset | connSpeed | connType
  | proxyType | proxyDescription | isHostingProvider
  | isBot | botName | isMobile | isTablet | isDesktop | isSmartTV
  | isGameConsole | deviceName | deviceBrand | deviceModel
  | browserName | browserVersion | osName | osVersion
  | method | path | host | userAgent
  | ja3 | ja4
  | header (name : String)
  deriving Repr, DecidableEq

/-- Comparison operators for graph conditions (core/src/nodes.rs, enum Operator). -/
inductive Operator where
  | equals | notEquals | contains | notContains | startsWith | endsWith
  | matches
  | greaterThan | lessThan | greaterOrEqual | lessOrEqual
  | inList | notInList
  | inCidr
  | exists | notExists
  deriving Repr, DecidableEq

/-- Condition comparison value (core/src/nodes.rs, enum ConditionValue). -/
inductive ConditionValue where
  | string (s : String)
  | number (n : Int)
  | bool (b : Bool)
  | list (l : List String)
  | cidrList (l : List String)
  deriving Repr, DecidableEq

/-- Rate limiting windows (core/src/nodes.rs, enum RateWindow). -/
inductive RateWindow where
  | oneSec | tenSecs | sixtySecs
  deriving Repr, DecidableEq

/-- Rate limiting modes (core/src/nodes.rs, enum RateLimitMode). -/
inductive RateLimitMode where
  | checkRate | checkRateAndPenalize | inPenaltyBox | addToPenaltyBox
  deriving Repr, DecidableEq

/-- Challenge types (core/src/nodes.rs, enum ChallengeType). -/
inductive ChallengeType where
  | nonInteractive | interactive | captcha
  deriving Repr, DecidableEq

/-- Log severities (core/src/nodes.rs, enum LogSeverity). -/
inductive LogSeverity where
  | debug | info | warning | error
  deriving Repr, DecidableEq

/-- Header operations (core/src/nodes.rs, enum HeaderOp). -/
inductive HeaderOp where
  | set | remove
  deriving Repr, DecidableEq

/-- Action types (core/src/nodes.rs, enum ActionType). -/
inductive ActionType where
  | block (statusCode : Nat) (message : String)
  | challenge (challengeType : ChallengeType)
  | tarpit (delayMs : Nat)
  | log (message : String) (severity : LogSeverity)
  | allow
  deriving Repr, DecidableEq

/-- Node kinds (core/src/nodes.rs, enum NodeKind). -/
inductive NodeKind where
  | request
  | condition (field : RequestField) (operator : Operator) (value : ConditionValue)
  | and (inputCount : Nat)
  | or (inputCount : Nat)
  | not
  | rateLimit (mode : RateLimitMode) (counterName : String) (window : RateWindow)
      (threshold : Nat) (penaltyTtlSeconds : Nat)
  | action (action : ActionType)
  | forward (backend : String)
  | header (operation : HeaderOp) (name : String) (value : Option String)
  | comment (text : String)
  deriving Repr, DecidableEq

/-- NodeKind::inputs (core/src/nodes.rs).  Only the port lists matter to
the interpreter (via their length in gather_inputs). -/
def NodeKind.inputs : NodeKind → List InputPort
  | .request => []
  | .condition _ _ _ => []
  | .and inputCount => (List.range inputCount).map
      (fun i => ⟨"in" ++ toString i, PortType.bool⟩)
  | .or inputCount => (List.range inputCount).map
      (fun i => ⟨"in" ++ toString i, PortType.bool⟩)
  | .not => [⟨"in", PortType.bool⟩]
  | .rateLimit mode _ _ _ _ =>
      match mode with
      | .addToPenaltyBox => [⟨"trigger", PortType.bool⟩]
      | _ => []
  | .action _ => [⟨"trigger", PortType.bool⟩]
  | .forward _ => [⟨"trigger", PortType.bool⟩]
  | .header _ _ _ => [⟨"trigger", PortType.bool⟩]
  | .comment _ => []

/-- NodeKind::outputs (core/src/nodes.rs). -/
def NodeKind.outputs : NodeKind → List OutputPort
  | .request => [⟨"request", PortType.anyTy⟩]
  | .condition _ _ _ => [⟨"match", PortType.bool⟩]
  | .and _ => [⟨"out", PortType.bool⟩]
  | .or _ => [⟨"out", PortType.bool⟩]
  | .not => [⟨"out", PortType.bool⟩]
  | .rateLimit mode _ _ _ _ =>
      match mode with
      | .checkRate => [⟨"exceeded", PortType.bool⟩]
      | .checkRateAndPenalize => [⟨"exceeded", PortType.bool⟩]
      | .inPenaltyBox => [⟨"in_box", PortType.bool⟩]
      | .addToPenaltyBox => []
  | .action _ => []
  | .forward _ => []
  | .header _ _ _ => []
  | .comment _ => []

/-- A node in the graph (core/src/nodes.rs, struct Node).  NodeId is u32 in
the source, modelled as Nat; position is editor metadata, modelled as a pair
of Int (f32 in the source, never computed with). -/
structure Node where
  id : Nat
  kind : NodeKind
  position : Int × Int
  deriving Repr, DecidableEq

/-- A connection between two node ports (core/src/graph.rs, struct Edge). -/
structure Edge where
  fromNode : Nat
  fromPort : Nat
  toNode : Nat
  toPort : Nat
  deriving Repr, DecidableEq

/-- A complete security rule graph (core/src/graph.rs, struct Graph). -/
structure Graph where
  name : String
  description : String
  nodes : List Node
  edges : List Edge
  nextId : Nat
  deriving Repr, DecidableEq

/-- Graph errors (core/src/graph.rs, enum GraphError). -/
inductive GraphError where
  | nodeNotFound (id : Nat)
  | cycleDetected
  | portNotFound
  deriving Repr, DecidableEq

/-- Graph::new (core/src/graph.rs). -/
def Graph.new (name : String) : Graph :=
  { name := name, description := "", nodes := [], edges := [], nextId := 0 }

/-- Graph::add_node (core/src/graph.rs): assigns the next id, appends the
node, returns the graph together with the assigned id. -/
def Graph.addNode (g : Graph) (node : Node) : Graph × Nat :=
  let id := g.nextId
  ({ g with nextId := g.nextId + 1, nodes := g.nodes ++ [{ node with id := id }] }, id)

/-- Graph::connect (core/src/graph.rs).  The source mutates self and returns
Result; modelled as returning the (possibly unchanged) graph paired with the
error, so that the error cases provably leave the graph unchanged. -/
def Graph.connect (g : Graph) (fromNode fromPort toNode toPort : Nat) :
    Option GraphError × Graph :=
  if !(g.nodes.any (fun n => n.id == fromNode)) then
    (some (GraphError.nodeNotFound fromNode), g)
  else if !(g.nodes.any (fun n => n.id == toNode)) then
    (some (GraphError.nodeNotFound toNode), g)
  else if fromNode == toNode then
    (some GraphError.cycleDetected, g)
  else
    let edges1 := g.edges.filter
      (fun e => !(e.toNode == toNode && e.toPort == toPort))
    (none, { g with edges := edges1 ++ [⟨fromNode, fromPort, toNode, toPort⟩] })

/-- Graph::get_node (core/src/graph.rs). -/
def Graph.getNode (g : Graph) (id : Nat) : Option Node :=
  g.nodes.find? (fun n => n.id == id)

/-- Graph::get_incoming_edges (core/src/graph.rs). -/
def Graph.getIncomingEdges (g : Graph) (nodeId : Nat) : List Edge :=
  g.edges.filter (fun e => e.toNode == nodeId)

/-- Graph::visit_node (core/src/graph.rs): DFS with temporary-mark cycle
detection.  The source recurses on the call stack; here the recursion is
fuelled, one unit of fuel per DFS level, and the incoming-edge loop of the
source is a fold recursing at the decremented fuel.  The fuel chosen in
topologicalSort strictly exceeds the deepest possible DFS stack (the
temporary marks on one path are pairwise distinct ids drawn from the nodes
and edges), so the fuel-exhaustion branch is unreachable and exists only to
make the recursion structural. -/
def visitNode (g : Graph) : Nat → Nat → List Nat → List Nat → List Nat →
    Except GraphError (List Nat × List Nat)
  | 0, _, _, _, _ => .error GraphError.cycleDetected
  | fuel + 1, nodeId, visited, temp, result =>
    if temp.contains nodeId then .error GraphError.cycleDetected
    else if visited.contains nodeId then .ok (visited, result)
    else
      let step := fun (acc : Except GraphError (List Nat × List Nat)) (e : Edge) =>
        match acc with
        | .error err => .error err
        | .ok (v, r) => visitNode g fuel e.fromNode v (nodeId :: temp) r
      match (g.getIncomingEdges nodeId).foldl step (.ok (visited, result)) with
      | .error e => .error e
      | .ok (v, r) => .ok (nodeId :: v, r ++ [nodeId])

/-- The node loop inside Graph::topological_sort. -/
def topoLoop (g : Graph) (fuel : Nat) :
    List Node → List Nat → List Nat → Except GraphError (List Nat × List Nat)
  | [], visited, result => .ok (visited, result)
  | n :: rest, visited, result =>
    if visited.contains n.id then topoLoop g fuel rest visited result
    else
      match visitNode g fuel n.id visited [] result with
      | .error e => .error e
      | .ok (v, r) => topoLoop g fuel rest v r

/-- Graph::topological_sort (core/src/graph.rs). -/
def Graph.topologicalSort (g : Graph) : Except GraphError (List Nat) :=
  let fuel := g.nodes.length + g.edges.length + 1
  match topoLoop g fuel g.nodes [] [] with
  | .error e => .error e
  | .ok (_, result) => .ok result

/-- Association-list model of std HashMap lookup (get): first binding for
the key, if any. -/
def alGet {α β : Type} [BEq α] (m : List (α × β)) (k : α) : Option β :=
  (m.find? (fun p => p.1 == k)).map Prod.snd

/-- Association-list model of std HashMap insert: replace the binding in
place if the key is present, append otherwise. -/
def alInsert {α β : Type} [BEq α] (k : α) (v : β) : List (α × β) → List (α × β)
  | [] => [(k, v)]
  | (k2, v2) :: rest => if k2 == k then (k, v) :: rest else (k2, v2) :: alInsert k v rest

/-- Request data available during graph execution
(core/src/interpreter.rs, struct RequestContext).  IpAddr is modelled by its
string form; the f64 latitude and longitude by Int (never computed with). -/
structure RequestContext where
  clientIp : Option String := none
  asn : Option Nat := none
  country : Option String := none
  countryCode3 : Option String := none
  continent : Option String := none
  city : Option String := none
  region : Option String := none
  postalCode : Option String := none
  latitude : Option Int := none
  longitude : Option Int := none
  metroCode : Option Int := none
  utcOffset : Option Int := none
  connSpeed : Option String := none
  connType : Option String := none
  proxyType : Option String := none
  proxyDescription : Option String := none
  isHostingProvider : Bool := false
  isBot : Bool := false
  botName : Option String := none
  isMobile : Bool := false
  isTablet : Bool := false
  isDesktop : Bool := false
  isSmartTV : Bool := false
  isGameConsole : Bool := false
  deviceName : Option String := none
  deviceBrand : Option String := none
  deviceModel : Option String := none
  browserName : Option String := none
  browserVersion : Option String := none
  osName : Option String := none
  osVersion : Option String := none
  method : String := ""
  path : String := ""
  host : String := ""
  userAgent : String := ""
  ja3 : Option String := none
  ja4 : Option String := none
  headers : List (String × String) := []
  deriving Repr

/-- RequestContext::get_field (core/src/interpreter.rs). -/
def RequestContext.getField (r : RequestContext) : RequestField → Value
  | .clientIp => (r.clientIp.map Value.ip).getD Value.none
  | .asn => (r.asn.map (fun n => Value.number n)).getD Value.none
  | .country => (r.country.map Value.string).getD Value.none
  | .countryCode3 => (r.countryCode3.map Value.string).getD Value.none
  | .continent => (r.continent.map Value.string).getD Value.none
  | .city => (r.city.map Value.string).getD Value.none
  | .region => (r.region.map Value.string).getD Value.none
  | .postalCode => (r.postalCode.map Value.string).getD Value.none
  | .latitude => (r.latitude.map Value.number).getD Value.none
  | .longitude => (r.longitude.map Value.number).getD Value.none
  | .metroCode => (r.metroCode.map Value.number).getD Value.none
  | .utcOffset => (r.utcOffset.map Value.number).getD Value.none
  | .connSpeed => (r.connSpeed.map Value.string).getD Value.none
  | .connType => (r.connType.map Value.string).getD Value.none
  | .proxyType => (r.proxyType.map Value.string).getD Value.none
  | .proxyDescription => (r.proxyDescription.map Value.string).getD Value.none
  | .isHostingProvider => Value.bool r.isHostingProvider
  | .isBot => Value.bool r.isBot
  | .botName => (r.botName.map Value.string).getD Value.none
  | .isMobile => Value.bool r.isMobile
  | .isTablet => Value.bool r.isTablet
  | .isDesktop => Value.bool r.isDesktop
  | .isSmartTV => Value.bool r.isSmartTV
  | .isGameConsole => Value.bool r.isGameConsole
  | .deviceName => (r.deviceName.map Value.string).getD Value.none
  | .deviceBrand => (r.deviceBrand.map Value.string).getD Value.none
  | .deviceModel => (r.deviceModel.map Value.string).getD Value.none
  | .browserName => (r.browserName.map Value.string).getD Value.none
  | .browserVersion => (r.browserVersion.map Value.string).getD Value.none
  | .osName => (r.osName.map Value.string).getD Value.none
  | .osVersion => (r.osVersion.map Value.string).getD Value.none
  | .method => Value.string r.method
  | .path => Value.string r.path
  | .host => Value.string r.host
  | .userAgent => Value.string r.userAgent
  | .ja3 => (r.ja3.map Value.string).getD Value.none
  | .ja4 => (r.ja4.map Value.string).getD Value.none
  | .header name => ((alGet r.headers name).map Value.string).getD Value.none

/-- Runtime state during graph execution
(core/src/interpreter.rs, struct ExecutionState).  The three HashMaps are
modelled as association lists with replace-on-insert semantics. -/
structure ExecutionState where
  outputs : List ((Nat × Nat) × Value) := []
  rateCounters : List (String × List (String × Nat)) := []
  penaltyBoxes : List (String × List String) := []
  deriving Repr

/-- ExecutionState::get_output (core/src/interpreter.rs). -/
def ExecutionState.getOutput (st : ExecutionState) (nodeId port : Nat) : Option Value :=
  alGet st.outputs (nodeId, port)

/-- ExecutionState::set_output (core/src/interpreter.rs). -/
def ExecutionState.setOutput (st : ExecutionState) (nodeId port : Nat) (v : Value) :
    ExecutionState :=
  { st with outputs := alInsert (nodeId, port) v st.outputs }

/-- ExecutionState::is_in_penalty_box (core/src/interpreter.rs). -/
def ExecutionState.isInPenaltyBox (st : ExecutionState) (boxName entry : String) : Bool :=
  match alGet st.penaltyBoxes boxName with
  | some b => b.contains entry
  | none => false

/-- ExecutionState::add_to_penalty_box (core/src/interpreter.rs): HashSet
insert into the (lazily created) named box. -/
def ExecutionState.addToPenaltyBox (st : ExecutionState) (boxName entry : String) :
    ExecutionState :=
  let b := (alGet st.penaltyBoxes boxName).getD []
  let b2 := if b.contains entry then b else b ++ [entry]
  { st with penaltyBoxes := alInsert boxName b2 st.penaltyBoxes }

/-- ExecutionState::increment_rate (core/src/interpreter.rs): returns the
incremented count together with the new state (the source mutates in place
and returns the count). -/
def ExecutionState.incrementRate (st : ExecutionState) (counterName entry : String) :
    Nat × ExecutionState :=
  let c := (alGet st.rateCounters counterName).getD []
  let count := (alGet c entry).getD 0 + 1
  (count, { st with rateCounters := alInsert counterName (alInsert entry count c) st.rateCounters })

/-- ExecutionState::get_rate (core/src/interpreter.rs). -/
def ExecutionState.getRate (st : ExecutionState) (counterName entry : String) : Nat :=
  (((alGet st.rateCounters counterName)).bind (fun c => alGet c entry)).getD 0

/-- The result of executing a graph
(core/src/interpreter.rs, enum ExecutionResult). -/
inductive ExecutionResult where
  | allow
  | block (statusCode : Nat) (message : String)
  | challenge (challengeType : String)
  | tarpit (delayMs : Nat)
  | log (message : String) (severity : String)
  | forward (backend : String)
  deriving Repr, DecidableEq

/-- External crates used by the interpreter, as oracles: regex compilation
(Regex::new, None modelling a compile error) and CIDR matching
(str::parse::<IpNet>() composed with IpNet::contains, None modelling a
parse error).  The control flow around them is embedded exactly. -/
structure Ext where
  regexCompile : String → Option (String → Bool)
  cidrContains : String → String → Option Bool

/-- The Equals arm of evaluate_condition (core/src/interpreter.rs).  The
source compares f64 numbers up to EPSILON; with Number modelled as Int this
is plain equality. -/
def evalEqualsOp : Value → ConditionValue → Bool
  | .string a, .string b => a == b
  | .number a, .number b => a == b
  | .bool a, .bool b => a == b
  | _, _ => false

/-- Model of str::contains (substring containment), as contiguous-sublist
containment on the character lists. -/
def strContainsSub (hay pat : String) : Bool :=
  decide (List.IsInfix pat.toList hay.toList)

/-- The Contains arm of evaluate_condition (core/src/interpreter.rs).
Substring containment is modelled on character lists. -/
def evalContainsOp : Value → ConditionValue → Bool
  | .string a, .string b => strContainsSub a b
  | _, _ => false

/-- The In arm of evaluate_condition (core/src/interpreter.rs). -/
def evalInOp : Value → ConditionValue → Bool
  | .string a, .list l => l.contains a
  | _, _ => false

/-- evaluate_condition (core/src/interpreter.rs).  The source expresses
NotEquals, NotContains and NotIn as recursive calls negating the positive
arm; here the shared positive arms are the eval*Op helpers. -/
def evaluateCondition (ext : Ext) (fieldValue : Value) (operator : Operator)
    (condValue : ConditionValue) : Bool :=
  match operator with
  | .equals => evalEqualsOp fieldValue condValue
  | .notEquals => !(evalEqualsOp fieldValue condValue)
  | .contains => evalContainsOp fieldValue condValue
  | .notContains => !(evalContainsOp fieldValue condValue)
  | .startsWith =>
    match fieldValue, condValue with
    | .string a, .string b => b.toList.isPrefixOf a.toList
    | _, _ => false
  | .endsWith =>
    match fieldValue, condValue with
    | .string a, .string b => b.toList.isSuffixOf a.toList
    | _, _ => false
  | .matches =>
    match fieldValue, condValue with
    | .string text, .string pattern =>
      ((ext.regexCompile pattern).map (fun re => re text)).getD false
    | _, _ => false
  | .greaterThan =>
    match fieldValue, condValue with
    | .number a, .number b => a > b
    | _, _ => false
  | .lessThan =>
    match fieldValue, condValue with
    | .number a, .number b => a < b
    | _, _ => false
  | .greaterOrEqual =>
    match fieldValue, condValue with
    | .number a, .number b => a ≥ b
    | _, _ => false
  | .lessOrEqual =>
    match fieldValue, condValue with
    | .number a, .number b => a ≤ b
    | _, _ => false
  | .inList => evalInOp fieldValue condValue
  | .notInList => !(evalInOp fieldValue condValue)
  | .inCidr =>
    match fieldValue, condValue with
    | .ip ip, .cidrList cidrs =>
      cidrs.any (fun cidr => ((ext.cidrContains cidr ip)).getD false)
    | .ip ip, .string cidr => ((ext.cidrContains cidr ip)).getD false
    | _, _ => false
  | .exists =>
    match fieldValue with
    | .none => false
    | _ => true
  | .notExists =>
    match fieldValue with
    | .none => true
    | _ => false

/-- gather_inputs (core/src/interpreter.rs): one slot per declared input
port, defaulting to Value.none, filled from incoming edges whose source
output has been produced. -/
def gatherInputs (g : Graph) (nodeId : Nat) (st : ExecutionState) : List Value :=
  match g.getNode nodeId with
  | none => []
  | some node =>
    let inputCount := node.kind.inputs.length
    let init := List.replicate inputCount Value.none
    (g.getIncomingEdges nodeId).foldl
      (fun acc e =>
        match st.getOutput e.fromNode e.fromPort with
        | some v => if e.toPort < acc.length then acc.set e.toPort v else acc
        | none => acc)
      init

/-- The output-recording loop at the end of execute_node
(core/src/interpreter.rs): set_output for each produced value, port indices
in order. -/
def setOutputs (st : ExecutionState) (nodeId : Nat) (vals : List Value) : ExecutionState :=
  (vals.enum).foldl (fun s pv => s.setOutput nodeId pv.1 pv.2) st

/-- execute_node (core/src/interpreter.rs): computes the node outputs
(possibly updating rate-limit state) and records them. -/
def executeNode (ext : Ext) (g : Graph) (node : Node) (request : RequestContext)
    (st : ExecutionState) : ExecutionState :=
  let inputs := gatherInputs g node.id st
  let res : List Value × ExecutionState :=
    match node.kind with
    | .request => ([Value.bool true], st)
    | .condition field operator value =>
      ([Value.bool (evaluateCondition ext (request.getField field) operator value)], st)
    | .and inputCount =>
      ([Value.bool ((List.range inputCount).all
          (fun i => (((inputs.get? i)).map Value.isTruthy).getD false))], st)
    | .or inputCount =>
      ([Value.bool ((List.range inputCount).any
          (fun i => (((inputs.get? i)).map Value.isTruthy).getD false))], st)
    | .not =>
      ([Value.bool (!((((inputs.get? 0)).map Value.isTruthy).getD false))], st)
    | .rateLimit mode counterName _ threshold _ =>
      let entry := request.clientIp.getD ""
      match mode with
      | .checkRate =>
        let (rate, st1) := st.incrementRate counterName entry
        ([Value.bool (rate > threshold)], st1)
      | .checkRateAndPenalize =>
        let (rate, st1) := st.incrementRate counterName entry
        let exceeded := rate > threshold
        let st2 := if exceeded then st1.addToPenaltyBox counterName entry else st1
        ([Value.bool exceeded], st2)
      | .inPenaltyBox =>
        ([Value.bool (st.isInPenaltyBox counterName entry)], st)
      | .addToPenaltyBox =>
        let trigger := (((inputs.get? 0)).map Value.isTruthy).getD false
        ([], if trigger then st.addToPenaltyBox counterName entry else st)
    | .action _ => ([], st)
    | .forward _ => ([], st)
    | .header _ _ _ => ([], st)
    | .comment _ => ([], st)
  setOutputs res.2 node.id res.1

/-- Debug rendering of ChallengeType, as produced by the derived Debug
format in check_action_result. -/
def ChallengeType.debugStr : ChallengeType → String
  | .nonInteractive => "NonInteractive"
  | .interactive => "Interactive"
  | .captcha => "Captcha"

/-- Debug rendering of LogSeverity, as produced by the derived Debug format
in check_action_result. -/
def LogSeverity.debugStr : LogSeverity → String
  | .debug => "Debug"
  | .info => "Info"
  | .warning => "Warning"
  | .error => "Error"

/-- check_action_result (core/src/interpreter.rs): fires a terminal Action
or Forward node whose trigger input (slot 0) is truthy. -/
def checkActionResult (g : Graph) (node : Node) (st : ExecutionState) :
    Option ExecutionResult :=
  let trigger := (((gatherInputs g node.id st).get? 0).map Value.isTruthy).getD false
  if !trigger then none
  else
    match node.kind with
    | .action action =>
      match action with
      | .block statusCode message => some (ExecutionResult.block statusCode message)
      | .challenge challengeType =>
        some (ExecutionResult.challenge challengeType.debugStr)
      | .tarpit delayMs => some (ExecutionResult.tarpit delayMs)
      | .log message severity => some (ExecutionResult.log message severity.debugStr)
      | .allow => some ExecutionResult.allow
    | .forward backend => some (ExecutionResult.forward backend)
    | _ => none

/-- The node loop inside execute (core/src/interpreter.rs): execute each
node in order, returning early when a terminal fires. -/
def runNodes (ext : Ext) (g : Graph) (request : RequestContext) :
    List Nat → ExecutionState → ExecutionResult × ExecutionState
  | [], st => (ExecutionResult.allow, st)
  | nodeId :: rest, st =>
    match g.getNode nodeId with
    | none => runNodes ext g request rest st
    | some node =>
      let st1 := executeNode ext g node request st
      match checkActionResult g node st1 with
      | some result => (result, st1)
      | none => runNodes ext g request rest st1

/-- execute (core/src/interpreter.rs): topologically sort, return Allow on
cycle, else run the nodes in order. -/
def execute (ext : Ext) (g : Graph) (request : RequestContext) (st : ExecutionState) :
    ExecutionResult × ExecutionState :=
  match g.topologicalSort with
  | .error _ => (ExecutionResult.allow, st)
  | .ok order => runNodes ext g request order st

end Core

namespace Flat

/-!
The flat rule engine of src/compute/src/rules/engine.rs.  The version of
types.rs defining Rule, Condition, ConditionRule, Action and the operator
enums is absent from the sources (the present types.rs holds only the
graph-editor payload types); those declarations are modelled from the
spec (section 3) and checked against the destructuring patterns of
engine.rs, which fully pin down the variants and field names used.
-/

/-- Modelled from the spec: the condition combinator of a rule (AND, OR,
NOT), matching the Operator patterns matched in
evaluate_condition_with_details. -/
inductive Operator where
  | AND | OR | NOT
  deriving Repr, DecidableEq

/-- Modelled from the spec: string operators of Path and UserAgent leaves
(equals, starts_with, contains, matches_regex), matching the
StringOperator patterns of evaluate_rule. -/
inductive StringOperator where
  | equals | startsWith | contains | matches
  deriving Repr, DecidableEq

/-- Modelled from the spec: IP operators (equals, in_range), matching the
IpOperator patterns of evaluate_rule. -/
inductive IpOperator where
  | equals | inRange
  deriving Repr, DecidableEq

/-- Modelled from the spec: device operators (is, is_not), matching the
DeviceOperator patterns of evaluate_rule. -/
inductive DeviceOperator where
  | is | isNot
  deriving Repr, DecidableEq

/-- Modelled from the spec: header operators (exists, not_exists, equals,
contains), matching the HeaderOperator patterns of evaluate_rule. -/
inductive HeaderOperator where
  | exists | notExists | equals | contains
  deriving Repr, DecidableEq

/-- Modelled from the spec: rate-limit windows (1s, 10s, 60s). -/
inductive RateWindow where
  | oneSec | tenSecs | sixtySecs
  deriving Repr, DecidableEq

/-- Modelled from the spec: the display form of the window used when
formatting generated counter and penalty-box names. -/
def RateWindow.display : RateWindow → String
  | .oneSec => "1s"
  | .tenSecs => "10s"
  | .sixtySecs => "60s"

/-- Modelled from the spec: a single typed condition leaf, matching the
ConditionRule patterns of evaluate_rule (engine.rs lines 202-341). -/
inductive ConditionRule where
  | path (operator : StringOperator) (value : String)
  | ip (operator : IpOperator) (value : List String)
  | device (operator : DeviceOperator) (value : String)
  | userAgent (operator : StringOperator) (value : String)
  | header (key : String) (operator : HeaderOperator)
  | rateLimit (window : RateWindow) (maxRequests : Nat) (blockTtl : Nat)
      (counterName : Option String) (penaltyboxName : Option String)
  deriving Repr, DecidableEq

/-- Modelled from the spec: a condition tree, one combinator over a list of
leaves. -/
structure Condition where
  operator : Operator
  rules : List ConditionRule
  deriving Repr, DecidableEq

/-- Modelled from the spec: the action of a rule (type plus optional
response fields); the loader tests read fields type_ and response_code. -/
structure Action where
  type_ : String
  responseCode : Option Nat := none
  responseMessage : Option String := none
  challengeType : Option String := none
  backend : Option String := none
  deriving Repr, DecidableEq

/-- Modelled from the spec: a named rule is stored as an enabled flag, a
condition tree and an action. -/
structure Rule where
  enabled : Bool
  conditions : Condition
  action : Action
  deriving Repr, DecidableEq

/-- The facade over the host fastly::Request used by evaluate_rule: path,
client IP (by its string form) and headers.  get_header_str and
contains_header are first-binding lookups on the header list. -/
structure FcRequest where
  path : String := ""
  clientIp : Option String := none
  headers : List (String × String) := []
  deriving Repr

/-- Request::get_header_str. -/
def FcRequest.getHeaderStr (req : FcRequest) (key : String) : Option String :=
  Core.alGet req.headers key

/-- Request::contains_header. -/
def FcRequest.containsHeader (req : FcRequest) (key : String) : Bool :=
  (Core.alGet req.headers key).isSome

/-- The host device-detection result (fastly::device_detection::Device):
the three class predicates return Option Bool, unwrap_or(false) at use. -/
structure Device where
  isMobileR : Option Bool
  isTabletR : Option Bool
  isDesktopR : Option Bool

/-- External services used by the flat engine, as oracles over an abstract
rate-limit service state sigma: regex (Regex::new), IPv4 CIDR matching
(Ipv4Cidr::from_str plus the V4 narrowing plus contains, combined; parse
failure and a non-V4 client both yield false as in the source), device
detection, and the fastly ERL penalty-box / rate-counter operations, each
of which can fail (modelled by Except Unit).  pbAdd takes the TTL in
seconds.  The handles cached in RuleEngine.rate_counters and
RuleEngine.penalty_boxes are keyed by name only, so the oracles are
addressed by name directly. -/
structure Env (σ : Type) where
  regexCompile : String → Option (String → Bool)
  ipv4CidrContains : String → String → Bool
  deviceLookup : String → Option Device
  pbHas : σ → String → String → Except Unit Bool
  rcIncrement : σ → String → String → Nat → Except Unit σ
  rcLookupRate : σ → String → String → RateWindow → Except Unit Nat
  pbAdd : σ → String → String → Nat → Except Unit σ

/-- The generated counter name for an unnamed rate-limit leaf
(engine.rs line 290). -/
def generatedCounterName (window : RateWindow) (maxRequests blockTtl : Nat) : String :=
  "rate_counter_" ++ window.display ++ "_" ++ toString maxRequests ++ "_" ++ toString blockTtl

/-- The generated penalty-box name for an unnamed rate-limit leaf
(engine.rs line 291). -/
def generatedPenaltyName (window : RateWindow) (maxRequests blockTtl : Nat) : String :=
  "penalty_box_" ++ window.display ++ "_" ++ toString maxRequests ++ "_" ++ toString blockTtl

/-- RuleEngine::evaluate_rule (engine.rs lines 202-341): evaluates one
condition leaf, returning the match result and the (possibly advanced)
rate-limit service state. -/
def evaluateRule (env : Env σ) (req : FcRequest) (st : σ) :
    ConditionRule → Bool × σ
  | .path operator value =>
    (match operator with
     | .equals => req.path == value
     | .startsWith => value.toList.isPrefixOf req.path.toList
     | .contains => Core.strContainsSub req.path value
     | .matches => ((env.regexCompile value).map (fun re => re req.path)).getD false, st)
  | .ip operator value =>
    (match req.clientIp with
     | some clientIp =>
       match operator with
       | .equals => value.contains clientIp
       | .inRange => value.any (fun cidrStr => env.ipv4CidrContains cidrStr clientIp)
     | none => false, st)
  | .device operator value =>
    (match req.getHeaderStr "user-agent" with
     | some userAgent =>
       match env.deviceLookup userAgent with
       | some device =>
         match operator, value with
         | .is, "mobile" => device.isMobileR.getD false
         | .is, "tablet" => device.isTabletR.getD false
         | .is, "desktop" => device.isDesktopR.getD false
         | .isNot, "mobile" => !(device.isMobileR.getD false)
         | .isNot, "tablet" => !(device.isTabletR.getD false)
         | .isNot, "desktop" => !(device.isDesktopR.getD false)
         | _, _ => false
       | none => false
     | none => false, st)
  | .userAgent operator value =>
    (match req.getHeaderStr "user-agent" with
     | some userAgent =>
       match operator with
       | .equals => userAgent == value
       | .contains => Core.strContainsSub userAgent value
       | .startsWith => value.toList.isPrefixOf userAgent.toList
       | .matches => ((env.regexCompile value).map (fun re => re userAgent)).getD false
     | none => false, st)
  | .header key operator =>
    (match operator with
     | .exists => req.containsHeader key
     | .notExists => !(req.containsHeader key)
     | .equals => ((req.getHeaderStr key).map (fun v => v == key)).getD false
     | .contains => ((req.getHeaderStr key).map (fun v => Core.strContainsSub v key)).getD false, st)
  | .rateLimit window maxRequests blockTtl counterName penaltyboxName =>
    let cname := counterName.getD (generatedCounterName window maxRequests blockTtl)
    let pname := penaltyboxName.getD (generatedPenaltyName window maxRequests blockTtl)
    match req.clientIp with
    | none => (false, st)
    | some clientIp =>
      let entry := clientIp
      match env.pbHas st pname entry with
      | .ok true => (true, st)
      | _ =>
        match env.rcIncrement st cname entry 1 with
        | .error _ => (false, st)
        | .ok st1 =>
          match env.rcLookupRate st1 cname entry window with
          | .error _ => (false, st1)
          | .ok rate =>
            if rate > maxRequests then
              match env.pbAdd st1 pname entry blockTtl with
              | .ok st2 => (true, st2)
              | .error _ => (false, st1)
            else (false, st1)

/-- The evaluation record of one condition leaf
(engine.rs, struct ConditionEvaluation). -/
structure ConditionEvaluation where
  rule : ConditionRule
  matched : Bool
  deriving Repr, DecidableEq

/-- The per-leaf loop of evaluate_condition_with_details (engine.rs lines
168-174): evaluate every leaf in order, threading the rate-limit state. -/
def evalLeaves (env : Env σ) (req : FcRequest) :
    List ConditionRule → σ → List ConditionEvaluation × σ
  | [], st => ([], st)
  | r :: rest, st =>
    let rb := evaluateRule env req st r
    let next := evalLeaves env req rest rb.2
    (⟨r, rb.1⟩ :: next.1, next.2)

/-- RuleEngine::evaluate_condition_with_details (engine.rs lines 161-183):
evaluate all leaves, then combine with the condition operator. -/
def evaluateConditionWithDetails (env : Env σ) (condition : Condition)
    (req : FcRequest) (st : σ) : (Bool × List ConditionEvaluation) × σ :=
  let er := evalLeaves env req condition.rules st
  let result :=
    match condition.operator with
    | .AND => er.1.all (fun e => e.matched)
    | .OR => er.1.any (fun e => e.matched)
    | .NOT => !(er.1.any (fun e => e.matched))
  ((result, er.1), er.2)

/-- The evaluation record of one rule (engine.rs, struct RuleEvaluation). -/
structure RuleEvaluation where
  name : String
  rule : Rule
  conditions : List ConditionEvaluation
  matched : Bool
  deriving Repr, DecidableEq

/-- The rule loop of evaluate_with_details (engine.rs lines 111-128). -/
def evalRulesLoop (env : Env σ) (req : FcRequest) :
    List (String × Rule) → σ → List RuleEvaluation →
    (Option (String × Action) × List RuleEvaluation) × σ
  | [], st, evaluations => ((none, evaluations), st)
  | (name, rule) :: rest, st, evaluations =>
    let mc := evaluateConditionWithDetails env rule.conditions req st
    let ev : RuleEvaluation := ⟨name, rule, mc.1.2, mc.1.1⟩
    let evaluations2 := evaluations ++ [ev]
    if mc.1.1 then ((some (name, rule.action), evaluations2), mc.2)
    else evalRulesLoop env req rest mc.2 evaluations2

/-- RuleEngine::evaluate_with_details (engine.rs lines 98-129).  The rules
live in a HashMap of names to rules, whose iteration order is arbitrary and
unspecified; the order is therefore an explicit argument iterOrder,
constrained in the theorems to be a permutation of the stored entries.  The
source first collects the enabled entries in iteration order, then runs the
rule loop. -/
def evaluateWithDetails (env : Env σ) (iterOrder : List (String × Rule))
    (req : FcRequest) (st : σ) :
    (Option (String × Action) × List RuleEvaluation) × σ :=
  let rulesToEvaluate := iterOrder.filter (fun p => p.2.enabled)
  evalRulesLoop env req rulesToEvaluate st []

/-- RuleEngine::evaluate (engine.rs lines 138-140). -/
def evaluate (env : Env σ) (iterOrder : List (String × Rule)) (req : FcRequest)
    (st : σ) : Option (String × Action) :=
  (evaluateWithDetails env iterOrder req st).1.1

/-- RuleEngine::add_rule (engine.rs lines 79-83): parse the JSON (serde is
external, modelled by the parseRule oracle), and on success insert into the
rules HashMap under the given name.  Returned as the Result paired with the
(possibly unchanged) rules map. -/
def addRule (parseRule : String → Except Unit Rule) (rules : List (String × Rule))
    (name : String) (ruleStr : String) : Except Unit Unit × List (String × Rule) :=
  match parseRule ruleStr with
  | .error e => (.error e, rules)
  | .ok rule => (.ok (), Core.alInsert name rule rules)

/-- RuleEngine::rule_count (engine.rs lines 66-68): the number of entries
of the rules HashMap. -/
def ruleCount (rules : List (String × Rule)) : Nat :=
  rules.length

/-- Modelled from the spec: backend configuration surfaced by the loader
(host, port, use_tls); no claim inspects its fields. -/
structure BackendConfig where
  host : String
  port : Nat
  useTls : Bool := true
  deriving Repr, DecidableEq

/-- The packed rules payload (loader.rs, struct PackedRules). -/
structure PackedRules where
  v : String
  r : List String
  d : List (String × Rule)
  backends : List (String × BackendConfig)
  deriving Repr, DecidableEq

/-- The result of loading rules (loader.rs, struct LoadedRules). -/
structure LoadedRules where
  ruleList : List String
  rules : List (String × Rule)
  backends : List (String × BackendConfig)
  deriving Repr, DecidableEq

/-- Rule loading errors (loader.rs, enum LoadError); the payloads of the
underlying external errors are modelled as strings. -/
inductive LoadError where
  | keyNotFound (key : String)
  | base64Error (e : String)
  | decompressError (e : String)
  | jsonError (e : String)
  | invalidFormat
  deriving Repr, DecidableEq

/-- External codecs used by the loader, as oracles: base64 decoding
(base64::Engine::decode), UTF-8 decoding (String::from_utf8), gzip
decompression (flate2 GzDecoder::read_to_string, which also decodes UTF-8),
and serde JSON parsing.  Bytes are Lists of Nat. -/
structure Codecs where
  b64Decode : String → Except String (List Nat)
  utf8Decode : List Nat → Except String String
  gunzip : List Nat → Except String String
  parsePackedJson : String → Except String PackedRules
  parseRuleJson : String → Except String Rule

/-- decompress_rules (loader.rs lines 62-89).  A value starting with the
prefix raw: is stripped and base64-decoded, the bytes then UTF-8-decoded
(a UTF-8 failure is converted to an io::Error in the source, hence
surfaces as decompressError); any other value is base64-decoded then
gzip-decompressed.  The resulting JSON is parsed; the version check only
prints a warning.  The prefix test and the strip of the source (byte range
4..) are modelled on the character list: raw: is ASCII, so byte and
character indexing coincide. -/
def decompressRules (c : Codecs) (packed : String) : Except LoadError LoadedRules :=
  let jsonE : Except LoadError String :=
    if "raw:".toList.isPrefixOf packed.toList then
      match c.b64Decode (String.mk (packed.toList.drop 4)) with
      | .error e => .error (LoadError.base64Error e)
      | .ok bytes =>
        match c.utf8Decode bytes with
        | .error e => .error (LoadError.decompressError e)
        | .ok s => .ok s
    else
      match c.b64Decode packed with
      | .error e => .error (LoadError.base64Error e)
      | .ok compressed =>
        match c.gunzip compressed with
        | .error e => .error (LoadError.decompressError e)
        | .ok s => .ok s
  match jsonE with
  | .error e => .error e
  | .ok json =>
    match c.parsePackedJson json with
    | .error e => .error (LoadError.jsonError e)
    | .ok parsed => .ok ⟨parsed.r, parsed.d, parsed.backends⟩

/-- load_legacy_rules (loader.rs lines 112-146): read the comma-separated
rule_list key, then each rule id key, skipping missing and unparsable
rules. -/
def loadLegacyRules (c : Codecs) (store : String → Option String) :
    Except LoadError LoadedRules :=
  match store "rule_list" with
  | none => .error (LoadError.keyNotFound "rule_list")
  | some ruleListStr =>
    let ruleList := (ruleListStr.splitOn ",").map (fun s => s.trim)
    let rules := ruleList.foldl
      (fun acc ruleId =>
        match store ruleId with
        | some ruleStr =>
          match c.parseRuleJson ruleStr with
          | .ok rule => Core.alInsert ruleId rule acc
          | .error _ => acc
        | none => acc)
      []
    .ok ⟨ruleList, rules, []⟩

/-- load_rules_from_store (loader.rs lines 95-109): try the packed key
first, fall back to the legacy format only when it is absent. -/
def loadRulesFromStore (c : Codecs) (store : String → Option String) :
    Except LoadError LoadedRules :=
  match store "rules_packed" with
  | some packed => decompressRules c packed
  | none => loadLegacyRules c store

end Flat

/-! Helper lemmas about the association-list HashMap model. -/

theorem Core.alGet_alInsert_self {α β : Type} [BEq α] [LawfulBEq α]
    (k : α) (v : β) (m : List (α × β)) :
    Core.alGet (Core.alInsert k v m) k = some v := by
  induction m with
  | nil => simp [Core.alGet, Core.alInsert]
  | cons hd tl ih =>
    by_cases h : hd.1 = k
    · simp [Core.alGet, Core.alInsert, h]
    · have hb : (hd.1 == k) = false := beq_eq_false_iff_ne.mpr h
      cases hd with
      | mk k2 v2 =>
        simp only at h hb
        simpa [Core.alGet, Core.alInsert, hb] using ih

theorem Core.alGet_alInsert_ne {α β : Type} [BEq α] [LawfulBEq α]
    (k k2 : α) (v : β) (m : List (α × β)) (h : k2 ≠ k) :
    Core.alGet (Core.alInsert k v m) k2 = Core.alGet m k2 := by
  have hkk2 : (k == k2) = false := beq_eq_false_iff_ne.mpr (Ne.symm h)
  induction m with
  | nil => simp [Core.alGet, Core.alInsert, hkk2]
  | cons hd tl ih =>
    cases hd with
    | mk k3 v3 =>
      by_cases h3 : (k3 == k) = true
      · have h32 : (k3 == k2) = false := by rw [eq_of_beq h3]; exact hkk2
        simp [Core.alGet, Core.alInsert, h3, h32, hkk2, List.find?]
      · have h3f : (k3 == k) = false := by simpa using h3
        by_cases h32 : (k3 == k2) = true
        · simp [Core.alGet, Core.alInsert, h3f, h32, List.find?]
        · have h32f : (k3 == k2) = false := by simpa using h32
          simp only [Core.alInsert, h3f, Bool.false_eq_true, if_false]
          simpa [Core.alGet, List.find?, h32f] using ih

theorem Core.alInsert_keys_of_mem {α β : Type} [BEq α] [LawfulBEq α]
    (k : α) (v : β) (m : List (α × β)) (h : k ∈ m.map Prod.fst) :
    (Core.alInsert k v m).map Prod.fst = m.map Prod.fst := by
  induction m with
  | nil => simp at h
  | cons hd tl ih =>
    cases hd with
    | mk k2 v2 =>
      by_cases h2 : k2 = k
      · subst h2
        simp [Core.alInsert]
      · have hb : (k2 == k) = false := beq_eq_false_iff_ne.mpr h2
        have hmem : k ∈ tl.map Prod.fst := by
          simp only [List.map_cons, List.mem_cons] at h
          rcases h with h | h
          · exact absurd h.symm h2
          · exact h
        simp [Core.alInsert, hb, ih hmem]

theorem Core.alInsert_keys_of_not_mem {α β : Type} [BEq α] [LawfulBEq α]
    (k : α) (v : β) (m : List (α × β)) (h : k ∉ m.map Prod.fst) :
    (Core.alInsert k v m).map Prod.fst = m.map Prod.fst ++ [k] := by
  induction m with
  | nil => simp [Core.alInsert]
  | cons hd tl ih =>
    cases hd with
    | mk k2 v2 =>
      have h2 : k2 ≠ k := by
        intro he
        exact h (by simp [he])
      have hmem : k ∉ tl.map Prod.fst := by
        intro hm
        exact h (by simp [hm])
      simp [Core.alInsert, beq_eq_false_iff_ne.mpr h2, ih hmem]

/-! Helper lemmas about ExecutionState operations. -/

theorem Core.setOutput_rateCounters (st : Core.ExecutionState) (n p : Nat) (v : Core.Value) :
    (st.setOutput n p v).rateCounters = st.rateCounters := rfl

theorem Core.setOutput_penaltyBoxes (st : Core.ExecutionState) (n p : Nat) (v : Core.Value) :
    (st.setOutput n p v).penaltyBoxes = st.penaltyBoxes := rfl

theorem Core.foldl_setOutput_rateCounters (n : Nat) :
    ∀ (l : List (Nat × Core.Value)) (st : Core.ExecutionState),
    (l.foldl (fun s pv => s.setOutput n pv.1 pv.2) st).rateCounters = st.rateCounters
  | [], _ => rfl
  | _ :: tl, st => Core.foldl_setOutput_rateCounters n tl _

theorem Core.foldl_setOutput_penaltyBoxes (n : Nat) :
    ∀ (l : List (Nat × Core.Value)) (st : Core.ExecutionState),
    (l.foldl (fun s pv => s.setOutput n pv.1 pv.2) st).penaltyBoxes = st.penaltyBoxes
  | [], _ => rfl
  | _ :: tl, st => Core.foldl_setOutput_penaltyBoxes n tl _

theorem Core.setOutputs_rateCounters (st : Core.ExecutionState) (n : Nat)
    (vals : List Core.Value) :
    (Core.setOutputs st n vals).rateCounters = st.rateCounters :=
  Core.foldl_setOutput_rateCounters n vals.enum st

theorem Core.setOutputs_penaltyBoxes (st : Core.ExecutionState) (n : Nat)
    (vals : List Core.Value) :
    (Core.setOutputs st n vals).penaltyBoxes = st.penaltyBoxes :=
  Core.foldl_setOutput_penaltyBoxes n vals.enum st

theorem Core.isInPenaltyBox_eq_of_pb (st1 st2 : Core.ExecutionState)
    (h : st1.penaltyBoxes = st2.penaltyBoxes) (bn e : String) :
    st1.isInPenaltyBox bn e = st2.isInPenaltyBox bn e := by
  simp [Core.ExecutionState.isInPenaltyBox, h]

theorem Core.getRate_eq_of_rc (st1 st2 : Core.ExecutionState)
    (h : st1.rateCounters = st2.rateCounters) (cn e : String) :
    st1.getRate cn e = st2.getRate cn e := by
  simp [Core.ExecutionState.getRate, h]

theorem Core.incrementRate_fst (st : Core.ExecutionState) (cn e : String) :
    (st.incrementRate cn e).1 = st.getRate cn e + 1 := by
  simp only [Core.ExecutionState.incrementRate, Core.ExecutionState.getRate]
  cases h : Core.alGet st.rateCounters cn with
  | none => simp [h, Core.alGet]
  | some c => simp [h]

theorem Core.incrementRate_penaltyBoxes (st : Core.ExecutionState) (cn e : String) :
    (st.incrementRate cn e).2.penaltyBoxes = st.penaltyBoxes := rfl

theorem Core.getRate_incrementRate_self (st : Core.ExecutionState) (cn e : String) :
    (st.incrementRate cn e).2.getRate cn e = st.getRate cn e + 1 := by
  simp only [Core.ExecutionState.incrementRate, Core.ExecutionState.getRate]
  rw [Core.alGet_alInsert_self]
  simp only [Option.some_bind]
  rw [Core.alGet_alInsert_self]
  cases h : Core.alGet st.rateCounters cn with
  | none => simp [h, Core.alGet]
  | some c => simp [h]

theorem Core.isInPenaltyBox_addToPenaltyBox_self (st : Core.ExecutionState)
    (bn e : String) :
    (st.addToPenaltyBox bn e).isInPenaltyBox bn e = true := by
  simp only [Core.ExecutionState.addToPenaltyBox, Core.ExecutionState.isInPenaltyBox]
  rw [Core.alGet_alInsert_self]
  by_cases h : e ∈ (Core.alGet st.penaltyBoxes bn).getD []
  · simp [h]
  · simp [h]

theorem Core.isInPenaltyBox_mono_addToPenaltyBox (st : Core.ExecutionState)
    (bn bn2 e e2 : String) (h : st.isInPenaltyBox bn e = true) :
    (st.addToPenaltyBox bn2 e2).isInPenaltyBox bn e = true := by
  by_cases hbn : bn = bn2
  · subst hbn
    simp only [Core.ExecutionState.addToPenaltyBox, Core.ExecutionState.isInPenaltyBox]
    rw [Core.alGet_alInsert_self]
    simp only [Core.ExecutionState.isInPenaltyBox] at h
    cases hg : Core.alGet st.penaltyBoxes bn with
    | none => rw [hg] at h; simp at h
    | some b =>
      rw [hg] at h
      have hmem : e ∈ b := List.mem_of_elem_eq_true h
      simp only [Option.getD_some]
      by_cases hc : e2 ∈ b
      · simp [hc, hmem]
      · simp [hc, hmem]
  · simp only [Core.ExecutionState.addToPenaltyBox, Core.ExecutionState.isInPenaltyBox]
    rw [Core.alGet_alInsert_ne _ _ _ _ hbn]
    simpa [Core.ExecutionState.isInPenaltyBox] using h

theorem Core.isInPenaltyBox_mono_executeNode (ext : Core.Ext) (g : Core.Graph)
    (node : Core.Node) (req : Core.RequestContext) (st : Core.ExecutionState)
    (bn e : String) (h : st.isInPenaltyBox bn e = true) :
    (Core.executeNode ext g node req st).isInPenaltyBox bn e = true := by
  have base : ∀ (st2 : Core.ExecutionState) (vals : List Core.Value),
      st2.isInPenaltyBox bn e = true →
      (Core.setOutputs st2 node.id vals).isInPenaltyBox bn e = true := by
    intro st2 vals h2
    rw [Core.isInPenaltyBox_eq_of_pb _ st2 (Core.setOutputs_penaltyBoxes st2 node.id vals)]
    exact h2
  cases hk : node.kind with
  | rateLimit mode cn w th ttl =>
    cases mode with
    | checkRate =>
      simp only [Core.executeNode, hk]
      apply base
      rw [Core.isInPenaltyBox_eq_of_pb _ st (Core.incrementRate_penaltyBoxes st cn _)]
      exact h
    | checkRateAndPenalize =>
      simp only [Core.executeNode, hk]
      apply base
      have h1 : (st.incrementRate cn (req.clientIp.getD "")).2.isInPenaltyBox bn e = true := by
        rw [Core.isInPenaltyBox_eq_of_pb _ st (Core.incrementRate_penaltyBoxes st cn _)]
        exact h
      split
      · exact Core.isInPenaltyBox_mono_addToPenaltyBox _ _ _ _ _ h1
      · exact h1
    | inPenaltyBox =>
      simp only [Core.executeNode, hk]
      exact base st _ h
    | addToPenaltyBox =>
      simp only [Core.executeNode, hk]
      apply base
      split
      · exact Core.isInPenaltyBox_mono_addToPenaltyBox _ _ _ _ _ h
      · exact h
  | request => simp only [Core.executeNode, hk]; exact base st _ h
  | condition f o v => simp only [Core.executeNode, hk]; exact base st _ h
  | and n => simp only [Core.executeNode, hk]; exact base st _ h
  | or n => simp only [Core.executeNode, hk]; exact base st _ h
  | not => simp only [Core.executeNode, hk]; exact base st _ h
  | action a => simp only [Core.executeNode, hk]; exact base st _ h
  | forward b => simp only [Core.executeNode, hk]; exact base st _ h
  | header o n v => simp only [Core.executeNode, hk]; exact base st _ h
  | comment t => simp only [Core.executeNode, hk]; exact base st _ h

/-! Concrete fixtures used by counterexamples and witnesses. -/

/-- A trivial oracle environment for the graph interpreter: every regex
fails to compile and every CIDR fails to parse (no embedded claim below
exercises them). -/
def extNone : Core.Ext := ⟨fun _ => none, fun _ _ => none⟩

/-- A trivial oracle environment for the flat engine over the unit
rate-limit service state: every ERL operation fails. -/
def envU : Flat.Env Unit :=
  ⟨fun _ => none, fun _ _ => false, fun _ => none,
   fun _ _ _ => .error (), fun _ _ _ _ => .error (),
   fun _ _ _ _ => .error (), fun _ _ _ _ => .error ()⟩

/-- A request with no client IP, no headers, empty path. -/
def reqEmpty : Flat.FcRequest := {}

/-- A rule whose condition tree is AND over no leaves: it matches every
request (all of the empty list holds). -/
def ruleMatchAllA : Flat.Rule :=
  ⟨true, ⟨Flat.Operator.AND, []⟩, ⟨"block", some 403, none, none, none⟩⟩

/-- A second always-matching enabled rule with a distinct action. -/
def ruleMatchAllB : Flat.Rule :=
  ⟨true, ⟨Flat.Operator.AND, []⟩, ⟨"challenge", none, none, some "captcha", none⟩⟩

/-- C1: the flat engine stores rules in a HashMap of names to rules; the
iteration order of a HashMap is arbitrary, and evaluate visits the enabled
entries in that iteration order.  With two enabled always-matching rules
inserted in the order a then b, the iteration order b, a (a permutation of
the entries, hence a possible HashMap order) makes evaluate return rule b,
not the first-inserted rule a: the result depends on the iteration order,
so evaluation does not visit rules in insertion (authoring) order and the
minimal-insertion-index characterization fails. -/
theorem c1_order_dependence :
    List.Perm [("a", ruleMatchAllA), ("b", ruleMatchAllB)]
      [("b", ruleMatchAllB), ("a", ruleMatchAllA)] ∧
    Flat.evaluate envU [("a", ruleMatchAllA), ("b", ruleMatchAllB)] reqEmpty () =
      some ("a", ruleMatchAllA.action) ∧
    Flat.evaluate envU [("b", ruleMatchAllB), ("a", ruleMatchAllA)] reqEmpty () =
      some ("b", ruleMatchAllB.action) ∧
    ruleMatchAllA.action ≠ ruleMatchAllB.action :=
  ⟨List.Perm.swap ("b", ruleMatchAllB) ("a", ruleMatchAllA) [], rfl, rfl, by decide⟩

/-- The two-node graph used against C2: a Request node (id 0) and a Not
node (id 1), with an edge from node 0 port 0 to node 1 port 0. -/
def c2Graph : Core.Graph :=
  (((((Core.Graph.new "g").addNode ⟨0, Core.NodeKind.request, (0, 0)⟩).1).addNode
    ⟨0, Core.NodeKind.not, (0, 0)⟩).1.connect 0 0 1 0).2

/-- C2 counterexample: connecting node 1 back to node 0 in c2Graph closes a
two-node cycle (witnessed by topological_sort reporting CycleDetected on
the result), yet connect succeeds with no error and adds the edge.  Only
self-loops are rejected at connect time. -/
theorem c2_counterexample :
    (c2Graph.connect 1 0 0 0).1 = none ∧
    (c2Graph.connect 1 0 0 0).2.topologicalSort =
      Except.error Core.GraphError.cycleDetected ∧
    c2Graph.topologicalSort = Except.ok [0, 1] ∧
    (c2Graph.connect 1 0 0 0).2.edges.length = c2Graph.edges.length + 1 :=
  ⟨rfl, rfl, rfl, rfl⟩

/-- C2 (corrected): connect rejects exactly the self-loop cycles.  For
every graph and existing node n, connect(n, p, n, q) returns CycleDetected
and leaves the graph unchanged; edges closing longer cycles are accepted
(the cycle is only caught later, by topological_sort at execution time). -/
theorem c2_self_loop_rejected (g : Core.Graph) (n p q : Nat)
    (h : g.nodes.any (fun node => node.id == n) = true) :
    g.connect n p n q = (some Core.GraphError.cycleDetected, g) := by
  simp [Core.Graph.connect, h]

/-- Witness for c2_self_loop_rejected: a self-loop connect on node 0 of
c2Graph is rejected and the graph is returned unchanged. -/
theorem c2_self_loop_rejected_witness :
    c2Graph.connect 0 0 0 0 = (some Core.GraphError.cycleDetected, c2Graph) :=
  c2_self_loop_rejected c2Graph 0 0 0 rfl

/-- The graph used against C3: a single RateLimit node, id 0, mode
CheckRate, counter name c, threshold 0. -/
def c3Node : Core.Node :=
  ⟨0, Core.NodeKind.rateLimit Core.RateLimitMode.checkRate "c"
    Core.RateWindow.oneSec 0 60, (0, 0)⟩

/-- The single-node graph holding c3Node. -/
def c3Graph : Core.Graph := ((Core.Graph.new "g").addNode c3Node).1

/-- C3 counterexample: executing a graph RateLimit node in CheckRate mode
against a request with no client IP increments the counter under the
empty-string entry and emits Bool true (threshold 0): the check neither
returns false nor is free of side effects. -/
theorem c3_counterexample :
    (Core.executeNode extNone c3Graph c3Node {} {}).getOutput 0 0 =
      some (Core.Value.bool true) ∧
    (Core.executeNode extNone c3Graph c3Node {} {}).getRate "c" "" = 1 ∧
    ({} : Core.ExecutionState).getRate "c" "" = 0 :=
  ⟨rfl, rfl, rfl⟩

/-- C3 (corrected): the no-client-IP guarantee holds for the flat-form
RateLimit leaf, which returns false and leaves the rate-limit service state
untouched; the graph RateLimit modes instead fall back to the empty string
as the entry, and in particular CheckRate and CheckRateAndPenalize
increment the counter under the empty-string entry (a side effect) even
when the request has no client IP. -/
theorem c3_no_ip_flat_false_graph_empty_entry :
    (∀ (σ : Type) (env : Flat.Env σ) (req : Flat.FcRequest) (st : σ)
       (w : Flat.RateWindow) (mr bt : Nat) (cn pn : Option String),
       req.clientIp = none →
       Flat.evaluateRule env req st (Flat.ConditionRule.rateLimit w mr bt cn pn) =
         (false, st)) ∧
    (∀ (ext : Core.Ext) (g : Core.Graph) (node : Core.Node)
       (req : Core.RequestContext) (st : Core.ExecutionState)
       (mode : Core.RateLimitMode) (cn : String) (w : Core.RateWindow) (th ttl : Nat),
       node.kind = Core.NodeKind.rateLimit mode cn w th ttl →
       req.clientIp = none →
       (mode = Core.RateLimitMode.checkRate ∨
        mode = Core.RateLimitMode.checkRateAndPenalize) →
       (Core.executeNode ext g node req st).getRate cn "" = st.getRate cn "" + 1) := by
  constructor
  · intro σ env req st w mr bt cn pn h
    simp [Flat.evaluateRule, h]
  · intro ext g node req st mode cn w th ttl hk hip hmode
    have hentry : req.clientIp.getD "" = "" := by rw [hip]; rfl
    rcases hmode with hm | hm
    · subst hm
      simp only [Core.executeNode, hk, hentry]
      rw [Core.getRate_eq_of_rc _ (st.incrementRate cn "").2
        (Core.setOutputs_rateCounters _ _ _)]
      exact Core.getRate_incrementRate_self st cn ""
    · subst hm
      simp only [Core.executeNode, hk, hentry]
      rw [Core.getRate_eq_of_rc _ _ (Core.setOutputs_rateCounters _ _ _)]
      split
      · rw [Core.getRate_eq_of_rc
          ((st.incrementRate cn "").2.addToPenaltyBox cn "")
          (st.incrementRate cn "").2 rfl]
        exact Core.getRate_incrementRate_self st cn ""
      · exact Core.getRate_incrementRate_self st cn ""

/-- Witness for c3_no_ip_flat_false_graph_empty_entry, at a concrete flat
leaf with no client IP and at the concrete CheckRate graph node. -/
theorem c3_no_ip_witness :
    Flat.evaluateRule envU reqEmpty ()
      (Flat.ConditionRule.rateLimit Flat.RateWindow.oneSec 2 60 none none) =
      (false, ()) ∧
    (Core.executeNode extNone c3Graph c3Node {} {}).getRate "c" "" =
      ({} : Core.ExecutionState).getRate "c" "" + 1 :=
  ⟨c3_no_ip_flat_false_graph_empty_entry.1 Unit envU reqEmpty ()
      Flat.RateWindow.oneSec 2 60 none none rfl,
   c3_no_ip_flat_false_graph_empty_entry.2 extNone c3Graph c3Node {} {}
      Core.RateLimitMode.checkRate "c" Core.RateWindow.oneSec 0 60 rfl rfl (Or.inl rfl)⟩

/-- C4 (corrected): behaviour of the flat-form RateLimit leaf for a
request with a client IP, characterized case by case over the outcomes of
the ERL operations at the resolved counter and penalty-box names: a
membership check answering Ok(true) means true with no further calls; any
other membership outcome, a failure included, falls through to the rate
path: increment, look up the rate, and when the rate exceeds max_requests
add the entry to the penalty box with TTL block_ttl and return true; under
the limit, or on a failing increment, rate-lookup or penalty-box-add
operation, return false (fail-open).  A failed membership check does not
by itself force false: see the counterexample
c4_has_failure_not_fail_open. -/
theorem c4_flat_ratelimit (σ : Type) (env : Flat.Env σ) (req : Flat.FcRequest)
    (st : σ) (w : Flat.RateWindow) (mr bt : Nat) (cnOpt pnOpt : Option String)
    (ip cname pname : String) (h : req.clientIp = some ip)
    (hcn : cname = cnOpt.getD (Flat.generatedCounterName w mr bt))
    (hpn : pname = pnOpt.getD (Flat.generatedPenaltyName w mr bt)) :
    (env.pbHas st pname ip = .ok true →
      Flat.evaluateRule env req st (Flat.ConditionRule.rateLimit w mr bt cnOpt pnOpt) =
        (true, st)) ∧
    (env.pbHas st pname ip ≠ .ok true →
      (env.rcIncrement st cname ip 1 = .error () →
        Flat.evaluateRule env req st (Flat.ConditionRule.rateLimit w mr bt cnOpt pnOpt) =
          (false, st)) ∧
      (∀ st1, env.rcIncrement st cname ip 1 = .ok st1 →
        (env.rcLookupRate st1 cname ip w = .error () →
          Flat.evaluateRule env req st (Flat.ConditionRule.rateLimit w mr bt cnOpt pnOpt) =
            (false, st1)) ∧
        (∀ rate, env.rcLookupRate st1 cname ip w = .ok rate →
          (rate > mr →
            (∀ st2, env.pbAdd st1 pname ip bt = .ok st2 →
              Flat.evaluateRule env req st (Flat.ConditionRule.rateLimit w mr bt cnOpt pnOpt) =
                (true, st2)) ∧
            (env.pbAdd st1 pname ip bt = .error () →
              Flat.evaluateRule env req st (Flat.ConditionRule.rateLimit w mr bt cnOpt pnOpt) =
                (false, st1))) ∧
          (¬ rate > mr →
            Flat.evaluateRule env req st (Flat.ConditionRule.rateLimit w mr bt cnOpt pnOpt) =
              (false, st1))))) := by
  subst hcn
  subst hpn
  constructor
  · intro hhas
    simp [Flat.evaluateRule, h, hhas]
  · intro hne
    have hred : Flat.evaluateRule env req st
        (Flat.ConditionRule.rateLimit w mr bt cnOpt pnOpt) =
        (match env.rcIncrement st (cnOpt.getD (Flat.generatedCounterName w mr bt)) ip 1 with
         | .error _ => (false, st)
         | .ok st1 =>
           match env.rcLookupRate st1 (cnOpt.getD (Flat.generatedCounterName w mr bt)) ip w with
           | .error _ => (false, st1)
           | .ok rate =>
             if rate > mr then
               match env.pbAdd st1 (pnOpt.getD (Flat.generatedPenaltyName w mr bt)) ip bt with
               | .ok st2 => (true, st2)
               | .error _ => (false, st1)
             else (false, st1)) := by
      rcases hhas : env.pbHas st (pnOpt.getD (Flat.generatedPenaltyName w mr bt)) ip with u | b
      · simp [Flat.evaluateRule, h, hhas]
      · cases b
        · simp [Flat.evaluateRule, h, hhas]
        · exact absurd hhas hne
    refine ⟨?_, ?_⟩
    · intro hinc
      rw [hred, hinc]
    · intro st1 hinc
      refine ⟨?_, ?_⟩
      · intro hrate
        rw [hred, hinc]
        simp [hrate]
      · intro rate hrate
        refine ⟨?_, ?_⟩
        · intro hgt
          refine ⟨?_, ?_⟩
          · intro st2 hadd
            rw [hred, hinc]
            simp [hrate, hgt, hadd]
          · intro hadd
            rw [hred, hinc]
            simp [hrate, hgt, hadd]
        · intro hle
          rw [hred, hinc]
          simp [hrate, hle]

/-- A concrete ERL environment over Nat service states, used to witness
c4_flat_ratelimit: has answers false, increment succeeds with state + 1,
the rate lookup answers state + 4, add succeeds with state * 10. -/
def env4 : Flat.Env Nat :=
  ⟨fun _ => none, fun _ _ => false, fun _ => none,
   fun s _ _ => .ok (s == 7), fun s _ _ _ => .ok (s + 1),
   fun s _ _ _ => .ok (s + 4), fun s _ _ _ => .ok (s * 10)⟩

/-- A request with a client IP, used to witness c4_flat_ratelimit. -/
def req4 : Flat.FcRequest := { clientIp := some "1.2.3.4" }

/-- The environment of env4 with the penalty-box membership check failing
instead of answering false. -/
def env4e : Flat.Env Nat :=
  ⟨fun _ => none, fun _ _ => false, fun _ => none,
   fun _ _ _ => .error (), fun s _ _ _ => .ok (s + 1),
   fun s _ _ _ => .ok (s + 4), fun s _ _ _ => .ok (s * 10)⟩

/-- C4 counterexample: a failing penalty-box operation does not make the
leaf return false.  In env4e the membership check fails, yet the leaf
falls through to the rate path, observes rate 5 over max_requests 3, adds
to the penalty box and returns true. -/
theorem c4_has_failure_not_fail_open :
    env4e.pbHas 0 (Flat.generatedPenaltyName Flat.RateWindow.oneSec 3 60) "1.2.3.4" =
      .error () ∧
    Flat.evaluateRule env4e req4 0
      (Flat.ConditionRule.rateLimit Flat.RateWindow.oneSec 3 60 none none) =
      (true, 10) :=
  ⟨rfl, rfl⟩

/-- Witness for c4_flat_ratelimit: in env4 from state 0 with max_requests
3, the leaf increments (state 1), observes rate 5 over the limit, adds to
the penalty box and returns true in the post-add state 10. -/
theorem c4_flat_ratelimit_witness :
    Flat.evaluateRule env4 req4 0
      (Flat.ConditionRule.rateLimit Flat.RateWindow.oneSec 3 60 none none) =
      (true, 10) := by
  have hmain := c4_flat_ratelimit Nat env4 req4 0 Flat.RateWindow.oneSec 3 60
    none none "1.2.3.4" _ _ rfl rfl rfl
  have hne : env4.pbHas 0 ((none : Option String).getD
      (Flat.generatedPenaltyName Flat.RateWindow.oneSec 3 60)) "1.2.3.4" ≠ .ok true := by
    simp [env4]
  exact ((((hmain.2 hne).2 1 rfl).2 5 rfl).1 (by decide)).1 10 rfl

/-- C5: the Header condition leaf.  exists holds iff the request carries
the header; not_exists is its boolean negation; equals holds iff the header
value equals the key string itself (the key-vs-value behaviour of the
source); contains holds iff the header value contains the key as a
substring; equals and contains are false when the header is absent; and no
header leaf touches the rate-limit state. -/
theorem c5_header_leaf (σ : Type) (env : Flat.Env σ) (req : Flat.FcRequest)
    (st : σ) (key : String) :
    ((Flat.evaluateRule env req st (Flat.ConditionRule.header key .exists)).1 = true ↔
      ∃ v, req.getHeaderStr key = some v) ∧
    ((Flat.evaluateRule env req st (Flat.ConditionRule.header key .notExists)).1 =
      !(Flat.evaluateRule env req st (Flat.ConditionRule.header key .exists)).1) ∧
    ((Flat.evaluateRule env req st (Flat.ConditionRule.header key .equals)).1 = true ↔
      req.getHeaderStr key = some key) ∧
    ((Flat.evaluateRule env req st (Flat.ConditionRule.header key .contains)).1 = true ↔
      ∃ v, req.getHeaderStr key = some v ∧ Core.strContainsSub v key = true) ∧
    (req.getHeaderStr key = none →
      (Flat.evaluateRule env req st (Flat.ConditionRule.header key .equals)).1 = false ∧
      (Flat.evaluateRule env req st (Flat.ConditionRule.header key .contains)).1 = false) ∧
    (∀ op, (Flat.evaluateRule env req st (Flat.ConditionRule.header key op)).2 = st) := by
  refine ⟨?_, ?_, ?_, ?_, ?_, ?_⟩
  · cases hv : req.getHeaderStr key with
    | none => simp [Flat.evaluateRule, Flat.FcRequest.containsHeader,
        Flat.FcRequest.getHeaderStr] at hv ⊢; simp [hv]
    | some v => simp [Flat.evaluateRule, Flat.FcRequest.containsHeader,
        Flat.FcRequest.getHeaderStr] at hv ⊢; simp [hv]
  · rfl
  · cases hv : req.getHeaderStr key with
    | none => simp [Flat.evaluateRule, hv]
    | some v => simp [Flat.evaluateRule, hv]
  · cases hv : req.getHeaderStr key with
    | none => simp [Flat.evaluateRule, hv]
    | some v => simp [Flat.evaluateRule, hv]
  · intro hv
    constructor
    · simp [Flat.evaluateRule, hv]
    · simp [Flat.evaluateRule, hv]
  · intro op
    cases op <;> rfl

/-- A request carrying the header X-Api-Key with value X-Api-Key, the
scenario S4 of the spec, used to witness c5_header_leaf. -/
def reqHdr : Flat.FcRequest := { headers := [("X-Api-Key", "X-Api-Key")] }

/-- Witness for c5_header_leaf: on reqHdr the equals leaf for key X-Api-Key
evaluates true (the header value equals the key). -/
theorem c5_header_leaf_witness :
    (Flat.evaluateRule envU reqHdr ()
      (Flat.ConditionRule.header "X-Api-Key" .equals)).1 = true :=
  (c5_header_leaf Unit envU reqHdr () "X-Api-Key").2.2.1.mpr rfl

/-- C6: for every leaf list and request, a NOT condition tree evaluates
true iff no leaf matched, and its match result is the boolean negation of
the OR tree over the same leaves; both trees produce identical per-leaf
evaluations and identical final rate-limit states. -/
theorem c6_not_demorgan (σ : Type) (env : Flat.Env σ) (req : Flat.FcRequest)
    (st : σ) (leaves : List Flat.ConditionRule) :
    ((Flat.evaluateConditionWithDetails env ⟨Flat.Operator.NOT, leaves⟩ req st).1.1 =
      !(Flat.evaluateConditionWithDetails env ⟨Flat.Operator.OR, leaves⟩ req st).1.1) ∧
    ((Flat.evaluateConditionWithDetails env ⟨Flat.Operator.NOT, leaves⟩ req st).1.2 =
      (Flat.evaluateConditionWithDetails env ⟨Flat.Operator.OR, leaves⟩ req st).1.2) ∧
    ((Flat.evaluateConditionWithDetails env ⟨Flat.Operator.NOT, leaves⟩ req st).2 =
      (Flat.evaluateConditionWithDetails env ⟨Flat.Operator.OR, leaves⟩ req st).2) ∧
    ((Flat.evaluateConditionWithDetails env ⟨Flat.Operator.NOT, leaves⟩ req st).1.1 = true ↔
      ∀ e ∈ (Flat.evaluateConditionWithDetails env ⟨Flat.Operator.NOT, leaves⟩ req st).1.2,
        e.matched = false) := by
  refine ⟨rfl, rfl, rfl, ?_⟩
  simp only [Flat.evaluateConditionWithDetails, Bool.not_eq_true', List.any_eq_false,
    Bool.not_eq_true]

/-- C8: the loader tries the rules_packed key first and falls back to the
legacy format only when it is absent; a packed value with the raw: prefix
is stripped and base64-decoded to JSON, any other value is base64-decoded
then gzip-decompressed; and each base64, decompression, or JSON-parse
failure surfaces as the corresponding LoadError variant, never as a
partial result. -/
theorem c8_loader (c : Flat.Codecs) (store : String → Option String) :
    (∀ p, store "rules_packed" = some p →
      Flat.loadRulesFromStore c store = Flat.decompressRules c p) ∧
    (store "rules_packed" = none →
      Flat.loadRulesFromStore c store = Flat.loadLegacyRules c store) ∧
    (∀ p, "raw:".toList.isPrefixOf p.toList = true →
      (∀ e, c.b64Decode (String.mk (p.toList.drop 4)) = .error e →
        Flat.decompressRules c p = .error (Flat.LoadError.base64Error e)) ∧
      (∀ bytes, c.b64Decode (String.mk (p.toList.drop 4)) = .ok bytes →
        (∀ e, c.utf8Decode bytes = .error e →
          Flat.decompressRules c p = .error (Flat.LoadError.decompressError e)) ∧
        (∀ json, c.utf8Decode bytes = .ok json →
          (∀ e, c.parsePackedJson json = .error e →
            Flat.decompressRules c p = .error (Flat.LoadError.jsonError e)) ∧
          (∀ pr, c.parsePackedJson json = .ok pr →
            Flat.decompressRules c p = .ok ⟨pr.r, pr.d, pr.backends⟩)))) ∧
    (∀ p, "raw:".toList.isPrefixOf p.toList = false →
      (∀ e, c.b64Decode p = .error e →
        Flat.decompressRules c p = .error (Flat.LoadError.base64Error e)) ∧
      (∀ bytes, c.b64Decode p = .ok bytes →
        (∀ e, c.gunzip bytes = .error e →
          Flat.decompressRules c p = .error (Flat.LoadError.decompressError e)) ∧
        (∀ json, c.gunzip bytes = .ok json →
          (∀ e, c.parsePackedJson json = .error e →
            Flat.decompressRules c p = .error (Flat.LoadError.jsonError e)) ∧
          (∀ pr, c.parsePackedJson json = .ok pr →
            Flat.decompressRules c p = .ok ⟨pr.r, pr.d, pr.backends⟩)))) := by
  refine ⟨?_, ?_, ?_, ?_⟩
  · intro p hp
    simp [Flat.loadRulesFromStore, hp]
  · intro hp
    simp [Flat.loadRulesFromStore, hp]
  · intro p hraw
    have hraw' : ['r', 'a', 'w', ':'] <+: p.data := by
      simpa using List.isPrefixOf_iff_prefix.mp hraw
    refine ⟨?_, ?_⟩
    · intro e hb
      simp only [String.toList] at hb
      simp [Flat.decompressRules, hraw', hb]
    · intro bytes hb
      simp only [String.toList] at hb
      refine ⟨?_, ?_⟩
      · intro e hu
        simp [Flat.decompressRules, hraw', hb, hu]
      · intro json hu
        refine ⟨?_, ?_⟩
        · intro e hj
          simp [Flat.decompressRules, hraw', hb, hu, hj]
        · intro pr hj
          simp [Flat.decompressRules, hraw', hb, hu, hj]
  · intro p hraw
    have hraw' : ¬ (['r', 'a', 'w', ':'] <+: p.data) := by
      intro hc
      have hc2 : "raw:".toList <+: p.toList := by simpa using hc
      rw [List.isPrefixOf_iff_prefix.mpr hc2] at hraw
      exact absurd hraw (by simp)
    refine ⟨?_, ?_⟩
    · intro e hb
      simp [Flat.decompressRules, hraw', hb]
    · intro bytes hb
      refine ⟨?_, ?_⟩
      · intro e hg
        simp [Flat.decompressRules, hraw', hb, hg]
      · intro json hg
        refine ⟨?_, ?_⟩
        · intro e hj
          simp [Flat.decompressRules, hraw', hb, hg, hj]
        · intro pr hj
          simp [Flat.decompressRules, hraw', hb, hg, hj]

/-- Concrete codecs used to witness c8_loader: base64 yields the byte 1,
UTF-8 decoding yields an empty JSON object, packed parsing yields an empty
payload; gzip and per-rule parsing fail (unused on the witnessed path). -/
def c8c : Flat.Codecs :=
  ⟨fun _ => .ok [1], fun _ => .ok "{}", fun _ => .error "gz",
   fun _ => .ok ⟨"1.0", [], [], []⟩, fun _ => .error "rule"⟩

/-- A store holding a raw: packed value under rules_packed. -/
def c8store : String → Option String :=
  fun k => if k = "rules_packed" then some "raw:QQ==" else none

/-- Witness for c8_loader: the packed key is found, the raw: path decodes,
and the loader returns the parsed (empty) payload. -/
theorem c8_loader_witness :
    Flat.loadRulesFromStore c8c c8store = .ok ⟨[], [], []⟩ := by
  have h := c8_loader c8c c8store
  exact (h.1 "raw:QQ==" (by decide)).trans
    (((((h.2.2.1 "raw:QQ==" (by decide)).2 [1] rfl).2 "{}" rfl).2 ⟨"1.0", [], [], []⟩ rfl))

/-- C9: add_rule parses the rule JSON; on a parse error it returns Err and
leaves the rules map (hence rule_count) unchanged; on success it returns Ok
and inserts the rule under the given name with HashMap semantics: the new
binding replaces any existing one in place, other names are unaffected, key
uniqueness is preserved, and rule_count grows only when the name is new. -/
theorem c9_add_rule (parseRule : String → Except Unit Flat.Rule)
    (rules : List (String × Flat.Rule)) (name ruleStr : String) :
    (∀ e, parseRule ruleStr = .error e →
      Flat.addRule parseRule rules name ruleStr = (.error e, rules)) ∧
    (∀ r, parseRule ruleStr = .ok r →
      Flat.addRule parseRule rules name ruleStr = (.ok (), Core.alInsert name r rules) ∧
      Core.alGet (Core.alInsert name r rules) name = some r ∧
      (∀ n2, n2 ≠ name →
        Core.alGet (Core.alInsert name r rules) n2 = Core.alGet rules n2) ∧
      ((rules.map Prod.fst).Nodup → ((Core.alInsert name r rules).map Prod.fst).Nodup) ∧
      (name ∈ rules.map Prod.fst →
        Flat.ruleCount (Core.alInsert name r rules) = Flat.ruleCount rules) ∧
      (name ∉ rules.map Prod.fst →
        Flat.ruleCount (Core.alInsert name r rules) = Flat.ruleCount rules + 1)) := by
  constructor
  · intro e hp
    simp [Flat.addRule, hp]
  · intro r hp
    refine ⟨by simp [Flat.addRule, hp], Core.alGet_alInsert_self name r rules, ?_, ?_, ?_, ?_⟩
    · intro n2 hn2
      exact Core.alGet_alInsert_ne name n2 r rules hn2
    · intro hnd
      by_cases hm : name ∈ rules.map Prod.fst
      · rw [Core.alInsert_keys_of_mem name r rules hm]
        exact hnd
      · rw [Core.alInsert_keys_of_not_mem name r rules hm]
        simp [List.nodup_append, hnd, hm]
    · intro hm
      have h1 : Flat.ruleCount (Core.alInsert name r rules) =
          ((Core.alInsert name r rules).map Prod.fst).length := by
        simp [Flat.ruleCount]
      rw [h1, Core.alInsert_keys_of_mem name r rules hm]
      simp [Flat.ruleCount]
    · intro hm
      have h1 : Flat.ruleCount (Core.alInsert name r rules) =
          ((Core.alInsert name r rules).map Prod.fst).length := by
        simp [Flat.ruleCount]
      rw [h1, Core.alInsert_keys_of_not_mem name r rules hm]
      simp [Flat.ruleCount]

/-- A concrete parse oracle used to witness c9_add_rule: the string good
parses to ruleMatchAllA, anything else fails. -/
def c9parse : String → Except Unit Flat.Rule :=
  fun s => if s = "good" then .ok ruleMatchAllA else .error ()

/-- Witness for c9_add_rule: inserting a parsed rule into the empty map
succeeds, and a parse failure leaves the (one-entry) map unchanged. -/
theorem c9_add_rule_witness :
    Flat.addRule c9parse [] "a" "good" = (.ok (), [("a", ruleMatchAllA)]) ∧
    Flat.addRule c9parse [("a", ruleMatchAllA)] "b" "bad" =
      (.error (), [("a", ruleMatchAllA)]) :=
  ⟨((c9_add_rule c9parse [] "a" "good").2 ruleMatchAllA rfl).1,
   (c9_add_rule c9parse [("a", ruleMatchAllA)] "b" "bad").1 () rfl⟩

/-- One iteration of the execute loop viewed as a state transformer:
execute the node with the given id if it exists, else leave the state
unchanged (the loop skips unknown ids). -/
def Core.stepState (ext : Core.Ext) (g : Core.Graph) (request : Core.RequestContext)
    (st : Core.ExecutionState) (nodeId : Nat) : Core.ExecutionState :=
  match g.getNode nodeId with
  | none => st
  | some node => Core.executeNode ext g node request st

/-- The execution state reached after running a prefix of the order. -/
def Core.execPrefix (ext : Core.Ext) (g : Core.Graph) (request : Core.RequestContext)
    (ids : List Nat) (st : Core.ExecutionState) : Core.ExecutionState :=
  ids.foldl (Core.stepState ext g request) st

/-- Whether the node with the given id fires as a terminal when executed
from the given state: execute it, then check_action_result on the post
state, exactly as one iteration of the execute loop does. -/
def Core.fireAt (ext : Core.Ext) (g : Core.Graph) (request : Core.RequestContext)
    (st : Core.ExecutionState) (nodeId : Nat) : Option Core.ExecutionResult :=
  match g.getNode nodeId with
  | none => none
  | some node => Core.checkActionResult g node (Core.executeNode ext g node request st)

theorem Core.runNodes_cons (ext : Core.Ext) (g : Core.Graph)
    (request : Core.RequestContext) (nodeId : Nat) (rest : List Nat)
    (st : Core.ExecutionState) :
    Core.runNodes ext g request (nodeId :: rest) st =
      (match Core.fireAt ext g request st nodeId with
       | some r => (r, Core.stepState ext g request st nodeId)
       | none => Core.runNodes ext g request rest (Core.stepState ext g request st nodeId)) := by
  simp only [Core.runNodes, Core.fireAt, Core.stepState]
  cases hg : g.getNode nodeId with
  | none => rfl
  | some node =>
    cases hc : Core.checkActionResult g node (Core.executeNode ext g node request st) with
    | none => rfl
    | some r => rfl

theorem Core.runNodes_first_fire (ext : Core.Ext) (g : Core.Graph)
    (request : Core.RequestContext) :
    ∀ (order : List Nat) (st : Core.ExecutionState),
    (∃ i, i < order.length ∧
      Core.fireAt ext g request (Core.execPrefix ext g request (order.take i) st)
        (order.getD i 0) = some (Core.runNodes ext g request order st).1 ∧
      ∀ j, j < i →
        Core.fireAt ext g request (Core.execPrefix ext g request (order.take j) st)
          (order.getD j 0) = none)
    ∨ ((Core.runNodes ext g request order st).1 = Core.ExecutionResult.allow ∧
      ∀ j, j < order.length →
        Core.fireAt ext g request (Core.execPrefix ext g request (order.take j) st)
          (order.getD j 0) = none)
  | [], st => Or.inr ⟨rfl, fun j hj => absurd hj (Nat.not_lt_zero j)⟩
  | nodeId :: rest, st => by
    rw [Core.runNodes_cons]
    cases hf : Core.fireAt ext g request st nodeId with
    | some r =>
      left
      refine ⟨0, by simp, ?_, fun j hj => absurd hj (Nat.not_lt_zero j)⟩
      simpa [Core.execPrefix] using hf
    | none =>
      rcases Core.runNodes_first_fire ext g request rest
          (Core.stepState ext g request st nodeId) with
        ⟨k, hk, hfire, hprev⟩ | ⟨hres, hnone⟩
      · left
        refine ⟨k + 1, by simpa using Nat.succ_lt_succ hk, ?_, ?_⟩
        · simpa [Core.execPrefix] using hfire
        · intro j hj
          cases j with
          | zero => simpa [Core.execPrefix] using hf
          | succ j' =>
            have hj' : j' < k := Nat.lt_of_succ_lt_succ hj
            simpa [Core.execPrefix] using hprev j' hj'
      · right
        refine ⟨by simpa using hres, ?_⟩
        intro j hj
        cases j with
        | zero => simpa [Core.execPrefix] using hf
        | succ j' =>
          have hj' : j' < rest.length := by simpa using Nat.lt_of_succ_lt_succ hj
          simpa [Core.execPrefix] using hnone j' hj'

/-- C7: graph execution returns Allow whenever topological sorting reports
a cycle; otherwise it runs the nodes in the returned topological order and
its result is that of the first node that fires as a terminal, where a node
fires exactly when it exists, it is an Action or Forward node, and its
trigger input (slot 0) is truthy after it executes; if no node of the order
fires, the result is Allow. -/
theorem c7_graph_execute (ext : Core.Ext) (g : Core.Graph)
    (request : Core.RequestContext) (st : Core.ExecutionState) :
    (∀ e, g.topologicalSort = .error e →
      Core.execute ext g request st = (Core.ExecutionResult.allow, st)) ∧
    (∀ order, g.topologicalSort = .ok order →
      Core.execute ext g request st = Core.runNodes ext g request order st ∧
      ((∃ i, i < order.length ∧
        Core.fireAt ext g request (Core.execPrefix ext g request (order.take i) st)
          (order.getD i 0) = some (Core.execute ext g request st).1 ∧
        ∀ j, j < i →
          Core.fireAt ext g request (Core.execPrefix ext g request (order.take j) st)
            (order.getD j 0) = none)
      ∨ ((Core.execute ext g request st).1 = Core.ExecutionResult.allow ∧
        ∀ j, j < order.length →
          Core.fireAt ext g request (Core.execPrefix ext g request (order.take j) st)
            (order.getD j 0) = none))) ∧
    (∀ st2 nodeId r, Core.fireAt ext g request st2 nodeId = some r →
      ∃ node, g.getNode nodeId = some node ∧ node.id = nodeId ∧
        (((Core.gatherInputs g node.id
            (Core.executeNode ext g node request st2)).get? 0).map
          Core.Value.isTruthy).getD false = true ∧
        ((∃ a, node.kind = Core.NodeKind.action a) ∨
         (∃ b, node.kind = Core.NodeKind.forward b))) := by
  refine ⟨?_, ?_, ?_⟩
  · intro e he
    simp [Core.execute, he]
  · intro order ho
    have hexec : Core.execute ext g request st = Core.runNodes ext g request order st := by
      simp [Core.execute, ho]
    refine ⟨hexec, ?_⟩
    rw [hexec]
    exact Core.runNodes_first_fire ext g request order st
  · intro st2 nodeId r hf
    simp only [Core.fireAt] at hf
    cases hg : g.getNode nodeId with
    | none => rw [hg] at hf; cases hf
    | some node =>
      rw [hg] at hf
      have hid : node.id = nodeId := by
        have := List.find?_some hg
        simpa using this
      refine ⟨node, rfl, hid, ?_⟩
      simp only [Core.checkActionResult] at hf
      by_cases ht : (((Core.gatherInputs g node.id
          (Core.executeNode ext g node request st2)).get? 0).map
            Core.Value.isTruthy).getD false = true
      · refine ⟨ht, ?_⟩
        rw [ht] at hf
        simp only [Bool.not_true, Bool.false_eq_true, if_false] at hf
        cases hk : node.kind with
        | action a => exact Or.inl ⟨a, rfl⟩
        | forward b => exact Or.inr ⟨b, rfl⟩
        | request => rw [hk] at hf; cases hf
        | condition f o v => rw [hk] at hf; cases hf
        | and n => rw [hk] at hf; cases hf
        | or n => rw [hk] at hf; cases hf
        | not => rw [hk] at hf; cases hf
        | rateLimit m cn w th ttl => rw [hk] at hf; cases hf
        | header o n v => rw [hk] at hf; cases hf
        | comment t => rw [hk] at hf; cases hf
      · have htf : (((Core.gatherInputs g node.id
            (Core.executeNode ext g node request st2)).get? 0).map
              Core.Value.isTruthy).getD false = false := by
          simpa using ht
        rw [htf] at hf
        simp at hf

/-- The two-node graph used to witness c7_graph_execute: Request (id 0)
wired to a blocking Action (id 1). -/
def c7Graph : Core.Graph :=
  (((((Core.Graph.new "g").addNode ⟨0, Core.NodeKind.request, (0, 0)⟩).1).addNode
    ⟨0, Core.NodeKind.action (Core.ActionType.block 403 "x"), (0, 0)⟩).1.connect 0 0 1 0).2

/-- Witness for c7_graph_execute: on c7Graph the sort yields the order
0, 1, execute runs it, and the Action node fires with Block 403. -/
theorem c7_graph_execute_witness :
    Core.execute extNone c7Graph {} {} = Core.runNodes extNone c7Graph {} [0, 1] {} ∧
    (Core.execute extNone c7Graph {} {}).1 = Core.ExecutionResult.block 403 "x" :=
  ⟨((c7_graph_execute extNone c7Graph {} {}).2.1 [0, 1] rfl).1, rfl⟩

theorem Core.getOutput_setOutputs_single (st : Core.ExecutionState) (nid : Nat)
    (v : Core.Value) :
    (Core.setOutputs st nid [v]).getOutput nid 0 = some v := by
  have h1 : Core.setOutputs st nid [v] = st.setOutput nid 0 v := rfl
  rw [h1]
  simp [Core.ExecutionState.getOutput, Core.ExecutionState.setOutput,
    Core.alGet_alInsert_self]

/-- C10: in graph execution, a CheckRateAndPenalize RateLimit node ignores
its penalty_ttl_seconds field entirely (any two TTL values give identical
execution); when the incremented count exceeds its threshold it adds the
client entry to the penalty box named by its counter_name; no node
execution ever removes a penalty-box entry (entries never expire within an
ExecutionState); and an InPenaltyBox node against the same counter_name,
executed for the same request while the entry is present, outputs Bool
true. -/
theorem c10_penalize (ext : Core.Ext) (g : Core.Graph) (req : Core.RequestContext)
    (st : Core.ExecutionState) (node : Core.Node) (cn : String)
    (w : Core.RateWindow) (th : Nat) :
    (∀ (mode : Core.RateLimitMode) (ttl1 ttl2 : Nat) (nid : Nat) (pos : Int × Int),
      Core.executeNode ext g ⟨nid, Core.NodeKind.rateLimit mode cn w th ttl1, pos⟩ req st =
      Core.executeNode ext g ⟨nid, Core.NodeKind.rateLimit mode cn w th ttl2, pos⟩ req st) ∧
    (∀ ttl, node.kind = Core.NodeKind.rateLimit
        Core.RateLimitMode.checkRateAndPenalize cn w th ttl →
      st.getRate cn (req.clientIp.getD "") + 1 > th →
      (Core.executeNode ext g node req st).isInPenaltyBox cn (req.clientIp.getD "") = true) ∧
    (∀ (node2 : Core.Node) (st2 : Core.ExecutionState) (bn e : String),
      st2.isInPenaltyBox bn e = true →
      (Core.executeNode ext g node2 req st2).isInPenaltyBox bn e = true) ∧
    (∀ (node2 : Core.Node) (st2 : Core.ExecutionState) (w2 : Core.RateWindow)
        (th2 ttl2 : Nat),
      node2.kind = Core.NodeKind.rateLimit Core.RateLimitMode.inPenaltyBox cn w2 th2 ttl2 →
      st2.isInPenaltyBox cn (req.clientIp.getD "") = true →
      (Core.executeNode ext g node2 req st2).getOutput node2.id 0 =
        some (Core.Value.bool true)) := by
  refine ⟨?_, ?_, ?_, ?_⟩
  · intro mode ttl1 ttl2 nid pos
    cases mode <;> rfl
  · intro ttl hk hgt
    simp only [Core.executeNode, hk]
    rw [Core.isInPenaltyBox_eq_of_pb _ _ (Core.setOutputs_penaltyBoxes _ _ _)]
    have hrate : (st.incrementRate cn (req.clientIp.getD "")).1 > th := by
      rw [Core.incrementRate_fst]
      exact hgt
    rw [if_pos hrate]
    exact Core.isInPenaltyBox_addToPenaltyBox_self _ _ _
  · intro node2 st2 bn e h
    exact Core.isInPenaltyBox_mono_executeNode ext g node2 req st2 bn e h
  · intro node2 st2 w2 th2 ttl2 hk hmem
    simp only [Core.executeNode, hk]
    rw [hmem]
    exact Core.getOutput_setOutputs_single st2 node2.id (Core.Value.bool true)

/-- The CheckRateAndPenalize node used to witness c10_penalize. -/
def c10Node : Core.Node :=
  ⟨0, Core.NodeKind.rateLimit Core.RateLimitMode.checkRateAndPenalize "c"
    Core.RateWindow.oneSec 0 60, (0, 0)⟩

/-- The InPenaltyBox node used to witness c10_penalize. -/
def c10NodeIn : Core.Node :=
  ⟨1, Core.NodeKind.rateLimit Core.RateLimitMode.inPenaltyBox "c"
    Core.RateWindow.oneSec 0 60, (0, 0)⟩

/-- The two-node graph holding c10Node and c10NodeIn. -/
def c10Graph : Core.Graph :=
  ((((Core.Graph.new "g").addNode c10Node).1).addNode c10NodeIn).1

/-- A request with a client IP, used to witness c10_penalize. -/
def req10 : Core.RequestContext := { clientIp := some "9.9.9.9" }

/-- Witness for c10_penalize: from the empty state, the penalize node puts
9.9.9.9 into the penalty box named c, and the InPenaltyBox node then
outputs Bool true in the resulting state. -/
theorem c10_penalize_witness :
    (Core.executeNode extNone c10Graph c10Node req10 {}).isInPenaltyBox "c" "9.9.9.9"
      = true ∧
    (Core.executeNode extNone c10Graph c10NodeIn req10
        (Core.executeNode extNone c10Graph c10Node req10 {})).getOutput 1 0 =
      some (Core.Value.bool true) := by
  have hb := (c10_penalize extNone c10Graph req10 {} c10Node "c"
    Core.RateWindow.oneSec 0).2.1 60 rfl (by decide)
  refine ⟨hb, ?_⟩
  exact (c10_penalize extNone c10Graph req10 {} c10Node "c"
    Core.RateWindow.oneSec 0).2.2.2 c10NodeIn
    (Core.executeNode extNone c10Graph c10Node req10 {})
    Core.RateWindow.oneSec 0 60 rfl hb
